import Mathlib

/-!
Verification of the blazeapi/thrustly routing and dispatch engine.

This file shallowly embeds the repository code:
  * `src/blazeapi/routing.py` — path-pattern compiler, `Route`, `Router`;
  * `src/blazeapi/validation.py` — strict-mode signature validator;
  * `src/blazeapi/app.py` — `_HandlerMeta`, `BlazeAPI` registration,
    middleware composition, and the per-request dispatcher.

Python regular expressions are embedded structurally: a compiled pattern
becomes a list of literal and parameter segments, and matching follows the
backtracking (greedy, longest-first) semantics of `re.Pattern.match` for
the five fixed parameter sub-patterns, including the CPython rule that the
final `$` also matches just before one trailing newline.
-/

namespace Blaze

/-! ### Character classes (ASCII fragment of the Python classes) -/

def isDigitChar (c : Char) : Bool := '0' ≤ c && c ≤ '9'

def isHexChar (c : Char) : Bool :=
  isDigitChar c || ('a' ≤ c && c ≤ 'f') || ('A' ≤ c && c ≤ 'F')

def isWordChar (c : Char) : Bool :=
  isDigitChar c || ('a' ≤ c && c ≤ 'z') || ('A' ≤ c && c ≤ 'Z') || c = '_'

/-! ### Lexical acceptors for the five `_PARAM_TYPES` regexes -/

/-- Acceptor for a nonempty digit run, the regex fragment `\d+`. -/
def digitsLex (s : List Char) : Bool := !s.isEmpty && s.all isDigitChar

/-- Acceptor for `-?\d+`, the `int` parameter pattern. -/
def intLex (s : List Char) : Bool :=
  match s with
  | [] => false
  | c :: rest => if c = '-' then digitsLex rest else digitsLex (c :: rest)

/-- Acceptor for `\d+(?:\.\d+)?`. -/
def floatBody (s : List Char) : Bool :=
  match s.dropWhile isDigitChar with
  | [] => !(s.takeWhile isDigitChar).isEmpty
  | c :: rest => c = '.' && !(s.takeWhile isDigitChar).isEmpty && digitsLex rest

/-- Acceptor for `-?\d+(?:\.\d+)?`, the `float` parameter pattern. -/
def floatLex (s : List Char) : Bool :=
  match s with
  | [] => false
  | c :: rest => if c = '-' then floatBody rest else floatBody (c :: rest)

/-- Acceptor for a hex run of each given length separated by dashes. -/
def dashedHexLex : List Nat → List Char → Bool
  | [], _ => false
  | [n], s => s.length = n && s.all isHexChar
  | n :: ns, s =>
    ((s.take n).length = n && (s.take n).all isHexChar) &&
      (match s.drop n with
       | '-' :: rest => dashedHexLex ns rest
       | _ => false)

/-- Acceptor for the canonical 8-4-4-4-12 `uuid` parameter pattern. -/
def uuidLex (s : List Char) : Bool := dashedHexLex [8, 4, 4, 4, 12] s

/-! ### Parameter types and converters (`_PARAM_TYPES`) -/

/-- The five built-in path-parameter types of `_PARAM_TYPES`. -/
inductive ParamType
  | str
  | int
  | float
  | uuid
  | path
deriving DecidableEq, Repr

/-- The `type` token recognized for each entry of `_PARAM_TYPES`. -/
def parseParamType (tok : String) : Option ParamType :=
  if tok = "str" then some .str
  else if tok = "int" then some .int
  else if tok = "float" then some .float
  else if tok = "uuid" then some .uuid
  else if tok = "path" then some .path
  else none

/-- Which strings each parameter sub-pattern accepts.  `str` is `[^/]+`
(anything but a slash, newline included); `path` is `.+` (anything but a
newline, since Python `.` does not match a newline without `DOTALL`). -/
def tyAccepts : ParamType → List Char → Bool
  | .str, s => !s.isEmpty && s.all (· ≠ '/')
  | .int, s => intLex s
  | .float, s => floatLex s
  | .uuid, s => uuidLex s
  | .path, s => !s.isEmpty && s.all (· ≠ '\n')

/-- Converted parameter values.  `int` captures go through Python `int`;
`str`, `uuid` and `path` captures stay strings; `float` captures are kept
as their matched lexeme (their numeric reading is not needed here). -/
inductive PValue
  | str (s : String)
  | int (n : Int)
  | float (lexeme : String)
deriving DecidableEq, Repr

/-- Value of a nonempty decimal digit run, as Python `int` reads it. -/
def natOfDigits (s : List Char) : Nat :=
  s.foldl (fun a c => a * 10 + (c.toNat - 48)) 0

/-- Python `int` applied to a string matched by `-?\d+`. -/
def pyParseInt (s : List Char) : Int :=
  match s with
  | '-' :: ds => -(natOfDigits ds : Int)
  | ds => (natOfDigits ds : Int)

/-- The converter attached to each parameter type by `_PARAM_TYPES`. -/
def convert : ParamType → List Char → PValue
  | .str, s => .str ⟨s⟩
  | .int, s => .int (pyParseInt s)
  | .float, s => .float ⟨s⟩
  | .uuid, s => .str ⟨s⟩
  | .path, s => .str ⟨s⟩

/-! ### Template scanning (`_PARAM_RE.finditer`) -/

/-- One compiled pattern segment: a verbatim literal run (the code
`re.escape`s it, so it matches itself exactly) or a named capturing slot. -/
inductive Seg
  | lit (l : List Char)
  | param (name : String) (ty : ParamType)
deriving DecidableEq, Repr

/-- Consume one expected character. -/
def expectChar (c : Char) : List Char → Option (List Char)
  | [] => none
  | x :: xs => if x = c then some xs else none

/-- Consume a nonempty run of word characters, the regex fragment `\w+`. -/
def readWord (s : List Char) : Option (String × List Char) :=
  if (s.takeWhile isWordChar).isEmpty then none
  else some (⟨s.takeWhile isWordChar⟩, s.dropWhile isWordChar)

/-- Read `{name}` or `{name:type}` at the head of the input, as the regex
`\{(\w+)(?::(\w+))?\}` would; returns the name, the optional type token and
the remaining input. -/
def readParamTok (s : List Char) : Option (String × Option String × List Char) :=
  match expectChar '{' s with
  | none => none
  | some r1 =>
    match readWord r1 with
    | none => none
    | some (nm, r2) =>
      match expectChar '}' r2 with
      | some r3 => some (nm, none, r3)
      | none =>
        match expectChar ':' r2 with
        | none => none
        | some r3 =>
          match readWord r3 with
          | none => none
          | some (tk, r4) =>
            match expectChar '}' r4 with
            | some r5 => some (nm, some tk, r5)
            | none => none

theorem expectChar_length {c : Char} {s rest : List Char}
    (h : expectChar c s = some rest) : rest.length < s.length := by
  match s with
  | [] => simp [expectChar] at h
  | x :: xs =>
    simp only [expectChar] at h
    split at h
    · injection h with h; subst h; simp
    · exact absurd h (by simp)

theorem dropWhile_length_le (p : Char → Bool) (l : List Char) :
    (l.dropWhile p).length ≤ l.length := by
  induction l with
  | nil => simp [List.dropWhile]
  | cons c cs ih =>
    simp only [List.dropWhile]
    cases p c <;> simp <;> omega

theorem readWord_length {s rest : List Char} {w : String}
    (h : readWord s = some (w, rest)) : rest.length ≤ s.length := by
  simp only [readWord] at h
  split at h
  · exact absurd h (by simp)
  · injection h with h
    injection h with h1 h2
    subst h2
    exact dropWhile_length_le _ _

theorem readParamTok_length {s rest : List Char} {nm : String}
    {tk : Option String} (h : readParamTok s = some (nm, tk, rest)) :
    rest.length < s.length := by
  simp only [readParamTok] at h
  split at h
  · exact absurd h (by simp)
  · rename_i r1 h1
    split at h
    · exact absurd h (by simp)
    · rename_i nm' r2 h2
      have l1 := expectChar_length h1
      have l2 := readWord_length h2
      split at h
      · rename_i r3 h3
        injection h with h
        injection h with ha hb
        injection hb with hb1 hb2
        subst hb2
        have l3 := expectChar_length h3
        omega
      · split at h
        · exact absurd h (by simp)
        · rename_i r3 h3
          have l3 := expectChar_length h3
          split at h
          · exact absurd h (by simp)
          · rename_i tk' r4 h4
            have l4 := readWord_length h4
            split at h
            · rename_i r5 h5
              injection h with h
              injection h with ha hb
              injection hb with hb1 hb2
              subst hb2
              have l5 := expectChar_length h5
              omega
            · exact absurd h (by simp)

/-- One scanned token: a literal chunk or a `(name, effective type token)`
parameter (the token defaults to `"str"`, as in `m.group(2) or "str"`). -/
abbrev ScanTok := List Char ⊕ String × String

/-- Left-to-right non-overlapping scan of a template for parameter tokens,
the embedding of `_PARAM_RE.finditer` together with the literal chunks
between matches.  `acc` holds the pending literal run in reverse. -/
def scanTokens (s : List Char) (acc : List Char) : List ScanTok :=
  match s with
  | [] => [.inl acc.reverse]
  | c :: cs =>
    match h : readParamTok (c :: cs) with
    | some (nm, tk, rest) =>
      .inl acc.reverse :: .inr (nm, tk.getD "str") :: scanTokens rest []
    | none => scanTokens cs (c :: acc)
termination_by s.length
decreasing_by
  · exact readParamTok_length h
  · simp

/-- The parameter placeholders of a template, with effective type tokens,
in scan order. -/
def scanParams (s : List Char) : List (String × String) :=
  (scanTokens s []).filterMap fun t =>
    match t with
    | .inr p => some p
    | .inl _ => none

/-- The registration-time error raised on an unknown type token
(`ValueError` with message `f"Unknown path parameter type: {type_name!r}"`;
the surrounding quotes of `!r` are elided here). -/
def unknownTypeMsg (tok : String) : String :=
  "Unknown path parameter type: " ++ tok

/-- Turn scanned tokens into compiled segments, failing on the first
parameter whose type token is not in `_PARAM_TYPES`. -/
def segsOfTokens : List ScanTok → Except String (List Seg)
  | [] => .ok []
  | .inl l :: ts => (segsOfTokens ts).map (Seg.lit l :: ·)
  | .inr (nm, tk) :: ts =>
    match parseParamType tk with
    | none => .error (unknownTypeMsg tk)
    | some ty => (segsOfTokens ts).map (Seg.param nm ty :: ·)

/-- Embedding of `_compile_pattern`: compile `/users/{id:int}` into a
segment list (regex + converter dict in the source). -/
def compilePattern (t : String) : Except String (List Seg) :=
  segsOfTokens (scanTokens t.data [])

/-! ### The compiled matcher (`re.Pattern.match` on `^...$`) -/

/-- Candidate capture lengths for one parameter slot, longest first — the
backtracking order of a greedy Python regex group whose accepted lexemes
are closed under nonempty prefixes in decreasing length (true of all five
`_PARAM_TYPES` sub-patterns). -/
def pathSplits (n : Nat) : List Nat := (List.range (n + 1)).reverse

/-- Structural embedding of `self._pattern.match(path)` for a compiled
pattern: anchored at the start, and at the end the `$` accepts either the
end of the string or a position just before one final newline (CPython
semantics of `$` outside MULTILINE mode).  Returns the captures as
`(group name, parameter type, matched lexeme)` in group order. -/
def matchSegs : List Seg → List Char → Option (List (String × ParamType × List Char))
  | [], s => if s = [] ∨ s = ['\n'] then some [] else none
  | .lit l :: rest, s =>
    if l.isPrefixOf s then matchSegs rest (s.drop l.length) else none
  | .param nm ty :: rest, s =>
    (pathSplits s.length).findSome? fun k =>
      if tyAccepts ty (s.take k) then
        (matchSegs rest (s.drop k)).map fun ps => (nm, ty, s.take k) :: ps
      else none

/-! ### Route and Router (`routing.py`) -/

/-- Python `str.upper` on the ASCII method names used here. -/
def pyUpper (s : String) : String := ⟨s.data.map Char.toUpper⟩

/-- One route: uppercased method, original template, compiled pattern and
the handler reference (generic, since the router never inspects it). -/
structure Route (H : Type) where
  method : String
  path : String
  handler : H
  segs : List Seg

/-- Embedding of `Route.__init__`: uppercase the method and compile the
pattern; a compilation failure propagates (the `ValueError` raised by
`_compile_pattern`). -/
def Route.make (method path : String) (handler : H) : Except String (Route H) :=
  (compilePattern path).map fun segs =>
    { method := pyUpper method, path := path, handler := handler, segs := segs }

/-- Embedding of `Route.match`: run the compiled matcher and convert each
captured value with its parameter-type converter. -/
def Route.matchPath (r : Route H) (p : String) : Option (List (String × PValue)) :=
  (matchSegs r.segs p.data).map fun caps =>
    caps.map fun c => (c.1, convert c.2.1 c.2.2)

/-- Ordered collection of routes with first-match-wins lookup. -/
structure Router (H : Type) where
  routes : List (Route H)

/-- The empty router (`Router.__init__`). -/
def Router.empty : Router H := ⟨[]⟩

/-- Embedding of `Router.add_route`: compile and append.  The Python
method mutates `self.routes` and returns the route; here the updated
router is returned alongside.  On a compilation error the route list is
untouched (the exception propagates before the `append`). -/
def Router.add_route (rt : Router H) (method path : String) (handler : H) :
    Except String (Router H × Route H) :=
  (Route.make method path handler).map fun r => (⟨rt.routes ++ [r]⟩, r)

/-- Embedding of `Router.match` (named `findMatch` because `match` is a
Lean keyword): uppercase the lookup method, then return the first route in
insertion order whose method equals it and whose pattern matches. -/
def Router.findMatch (rt : Router H) (method p : String) :
    Option (Route H × List (String × PValue)) :=
  rt.routes.findSome? fun r =>
    if r.method = pyUpper method then
      (r.matchPath p).map fun ps => (r, ps)
    else none

/-! ### Handlers, annotations, and requests -/

/-- The slice of the Python type-annotation universe the validator
distinguishes: `Response` and its subclasses, pydantic `BaseModel`
subclasses, and everything else (primitives such as `dict`, `list`, `str`,
`int`, `float`, `bool`, plus `object` and `NoneType`). -/
inductive PyType
  | response
  | jsonResponse
  | baseModel (modelName : String)
  | dictTy
  | listTy
  | strTy
  | intTy
  | floatTy
  | boolTy
  | objectTy
  | noneTy
deriving DecidableEq, Repr

/-- `isinstance(tp, type) and issubclass(tp, Response)`. -/
def isResponseSub : PyType → Bool
  | .response => true
  | .jsonResponse => true
  | _ => false

/-- Embedding of `_is_basemodel`: a `BaseModel` subclass. -/
def isBaseModelSub : PyType → Bool
  | .baseModel _ => true
  | _ => false

/-- Display name of a type, as `ret.__name__` produces it. -/
def pyTypeName : PyType → String
  | .response => "Response"
  | .jsonResponse => "JSONResponse"
  | .baseModel n => n
  | .dictTy => "dict"
  | .listTy => "list"
  | .strTy => "str"
  | .intTy => "int"
  | .floatTy => "float"
  | .boolTy => "bool"
  | .objectTy => "object"
  | .noneTy => "NoneType"

/-- A JSON-serializable value (the payloads `JSONResponse` carries). -/
inductive JVal
  | s (v : String)
  | n (v : Int)
  | b (v : Bool)
  | null
  | arr (items : List JVal)
  | obj (fields : List (String × JVal))

/-- Wire body: a JSON document or raw text bytes.
Modelled from the spec: the `Response` / `JSONResponse` classes live in
`blazeapi/response.py`, which is not among the provided sources; per §3 a
Response is a status code, headers and body bytes, and the JSON variant
serializes a structured value.  Headers are not modelled (no claim
mentions them). -/
inductive WireBody
  | jsonBody (v : JVal)
  | rawBody (text : String)

/-- Modelled from the spec: the outgoing wire response produced by
`Response.send` — a status code plus body (§3, §6). -/
structure WireResponse where
  status : Nat
  body : WireBody

/-- The transport scope for one exchange: the keys the dispatcher reads. -/
structure Scope where
  stype : String
  method : String
  path : String

/-- Embedding of `Request`: the scope plus the resolved path parameters
(`request.py`; body/receive streaming is not needed by any claim). -/
structure Request where
  scope : Scope
  path_params : List (String × PValue)

/-- An argument passed to a handler call: a converted path value or the
request object. -/
inductive Arg
  | pval (v : PValue)
  | req (r : Request)

/-- What a handler invocation produces: a return value or an exception. -/
inductive RetVal
  | resp (status : Nat) (body : WireBody)
  | dictVal (fields : List (String × JVal))
  | listVal (items : List JVal)
  | other (textRepr : String)

inductive HandlerResult
  | ok (v : RetVal)
  | exn (msg : String)

/-- One declared parameter of a handler: its name, its type annotation as
`get_type_hints` reports it (`none` when unannotated), and whether it has
a default value. -/
structure HParam where
  name : String
  annot : Option PyType
  hasDefault : Bool

/-- A registered Python handler: identity, `__name__`, declared signature,
coroutine-ness, and its behaviour as a function from the keyword arguments
it is called with to a result. -/
structure Handler where
  hid : Nat
  hname : String
  params : List HParam
  ret : Option PyType
  isCoroutine : Bool
  body : List (String × Arg) → HandlerResult

/-! ### Handler metadata (`_HandlerMeta`) -/

/-- Pre-computed handler metadata, built once at registration time. -/
structure HandlerMeta where
  is_coroutine : Bool
  wants_request : Bool
  param_names : List String

/-- Embedding of `_HandlerMeta.__init__`: coroutine flag, whether a
parameter is literally named `request`, and the declared parameter names
minus `request`. -/
def mkHandlerMeta (h : Handler) : HandlerMeta :=
  { is_coroutine := h.isCoroutine
  , wants_request := h.params.any (fun p => p.name = "request")
  , param_names := (h.params.map (·.name)).filter (fun n => n ≠ "request") }

/-! ### Strict-mode validation -/

/-- Embedding of `app.py`'s `_validate_return_type` — the check actually
wired into `BlazeAPI._route`: the return annotation must exist and be
`Response` or a subclass (a `BaseModel` subclass does NOT pass). -/
def validateReturnType (h : Handler) : Except String Unit :=
  match h.ret with
  | none =>
    .error ("Handler " ++ h.hname ++ " must have a return type annotation in strict mode")
  | some ret =>
    if isResponseSub ret then .ok ()
    else
      .error ("Handler " ++ h.hname ++ " return type must be Response or a subclass, got "
        ++ pyTypeName ret)

/-- Rules 3-5 of `validate_handler_signature`, iterating the declared
parameters in order with first-error semantics. -/
def validateParams (hname : String) (pathNames : List String) :
    List HParam → Except String Unit
  | [] => .ok ()
  | p :: rest =>
    if p.name = "request" then validateParams hname pathNames rest
    else
      match p.annot with
      | none =>
        .error ("Strict-mode violation in handler " ++ hname ++ ": Parameter "
          ++ p.name ++ " has no type annotation.")
      | some hint =>
        if pathNames.contains p.name then validateParams hname pathNames rest
        else if isBaseModelSub hint then validateParams hname pathNames rest
        else
          .error ("Strict-mode violation in handler " ++ hname ++ ": Non-path parameter "
            ++ p.name ++ " must be a BaseModel subclass.")

/-- Embedding of `validation.py`'s `validate_handler_signature`: the full
strict-mode rule set (return annotation present; return type a `Response`
or `BaseModel` subclass; every non-`request` parameter annotated;
non-path parameters must be `BaseModel` subclasses).  The path-parameter
names come from `_PATH_PARAM_RE.findall(path)`, the same token shape the
compiler scans. -/
def validate_handler_signature (h : Handler) (path : String) : Except String Unit :=
  match h.ret with
  | none =>
    .error ("Strict-mode violation in handler " ++ h.hname
      ++ ": Missing return type annotation.")
  | some ret =>
    if isResponseSub ret || isBaseModelSub ret then
      validateParams h.hname ((scanParams path.data).map (·.1)) h.params
    else
      .error ("Strict-mode violation in handler " ++ h.hname
        ++ ": Return type must be a Response subclass or BaseModel subclass, got "
        ++ pyTypeName ret ++ ".")

/-! ### The application object (`BlazeAPI`) -/

/-- The application state the dispatcher reads: router, flags, and the
handler-metadata table keyed by handler identity. -/
structure BlazeAPI where
  router : Router Handler
  strict : Bool
  debug : Bool
  handlerMeta : List (Nat × HandlerMeta)

/-- A fresh application (`BlazeAPI.__init__`). -/
def BlazeAPI.mk' (strict debug : Bool) : BlazeAPI :=
  { router := Router.empty, strict := strict, debug := debug, handlerMeta := [] }

/-- Dictionary write `self._handler_meta[handler] = meta`. -/
def setMeta (m : List (Nat × HandlerMeta)) (k : Nat) (v : HandlerMeta) :
    List (Nat × HandlerMeta) :=
  (k, v) :: m.filter (fun e => e.1 ≠ k)

/-- Dictionary read `self._handler_meta[handler]`. -/
def findMeta (m : List (Nat × HandlerMeta)) (k : Nat) : Option HandlerMeta :=
  (m.find? (fun e => e.1 = k)).map (·.2)

/-- Embedding of the `BlazeAPI._route` decorator body: in strict mode run
`_validate_return_type` (note: NOT `validation.validate_handler_signature`),
then `Router.add_route`, then record the handler metadata.  Any raised
error aborts registration with the router unchanged. -/
def BlazeAPI.route (app : BlazeAPI) (method path : String) (h : Handler) :
    Except String BlazeAPI :=
  match (if app.strict then validateReturnType h else .ok ()) with
  | .error e => .error e
  | .ok _ =>
    (app.router.add_route method path h).map fun rr =>
      { app with
          router := rr.1
          handlerMeta := setMeta app.handlerMeta h.hid (mkHandlerMeta h) }

/-! ### Invocation and dispatch (`BlazeAPI._invoke`, `BlazeAPI._handle`) -/

/-- Python call `handler(**kwargs)`: binding fails with a `TypeError` when
a declared parameter with no default is absent from the keyword arguments;
otherwise the handler body runs. -/
def pyCallHandler (h : Handler) (kwargs : List (String × Arg)) : HandlerResult :=
  match h.params.find? (fun p => !p.hasDefault && kwargs.all (fun kv => kv.1 != p.name)) with
  | some p =>
    .exn ("TypeError: " ++ h.hname ++ "() missing required argument: " ++ p.name)
  | none => h.body kwargs

/-- Embedding of `BlazeAPI._invoke`: look up the handler metadata, build
the keyword arguments (declared names that are resolved path parameters,
plus the request object when wanted), and call the handler.  Whether the
call is awaited directly (coroutine) or run on the executor (blocking
function) does not change the produced value, so both branches reduce to
the same call here; a missing metadata entry is the `KeyError` the dict
lookup would raise. -/
def BlazeAPI.invoke (app : BlazeAPI) (h : Handler) (req : Request)
    (path_params : List (String × PValue)) : HandlerResult :=
  match findMeta app.handlerMeta h.hid with
  | none => .exn "KeyError"
  | some meta =>
    let kwargs : List (String × Arg) :=
      (meta.param_names.filterMap fun n =>
        (path_params.lookup n).map fun v => (n, Arg.pval v))
      ++ (if meta.wants_request then [("request", Arg.req req)] else [])
    pyCallHandler h kwargs

/-- Modelled from the spec: `traceback.format_exc()` rendered from the
exception description (§4.4 rule 6 only requires that the debug body carry
the formatted failure trace). -/
def formatTraceback (msg : String) : String :=
  "Traceback (most recent call last): " ++ msg

/-- Embedding of the module-level `_send_response`: a `Response` instance
is sent as-is, a `dict` or `list` becomes a 200 `JSONResponse`, and
anything else is sent as `str(value)` text with status 200. -/
def sendResponseOf : RetVal → WireResponse
  | .resp st b => ⟨st, b⟩
  | .dictVal fs => ⟨200, .jsonBody (.obj fs)⟩
  | .listVal xs => ⟨200, .jsonBody (.arr xs)⟩
  | .other t => ⟨200, .rawBody t⟩

/-- What one pass of the dispatcher produced: the wire response sent (none
when the exchange was not HTTP and `_handle` returned without sending),
and the identity of the handler whose invocation was attempted, if any. -/
structure DispatchOutcome where
  response : Option WireResponse
  invoked : Option Nat

/-- Embedding of `BlazeAPI._handle`: ignore non-HTTP exchanges; emit a 404
`{"detail": "Not Found"}` JSON response when no route matches; otherwise
build the request, invoke the handler, convert any escaping exception into
a 500 `{"detail": "Internal Server Error"}` response (with a `traceback`
field in debug mode), and normalize the return value onto the wire. -/
def BlazeAPI.handle (app : BlazeAPI) (scope : Scope) : DispatchOutcome :=
  if scope.stype ≠ "http" then ⟨none, none⟩
  else
    match app.router.findMatch scope.method scope.path with
    | none =>
      ⟨some ⟨404, .jsonBody (.obj [("detail", .s "Not Found")])⟩, none⟩
    | some (route, path_params) =>
      let req : Request := ⟨scope, path_params⟩
      match app.invoke route.handler req path_params with
      | .exn msg =>
        let body :=
          [("detail", JVal.s "Internal Server Error")]
            ++ (if app.debug then [("traceback", JVal.s (formatTraceback msg))] else [])
        ⟨some ⟨500, .jsonBody (.obj body)⟩, some route.handler.hid⟩
      | .ok v => ⟨some (sendResponseOf v), some route.handler.hid⟩

/-! ### Middleware composition (`BlazeAPI._build_app`) -/

/-- Embedding of `BlazeAPI._build_app`: starting from the dispatcher as
the innermost application, wrap with each registered middleware in reverse
registration order (`for mw in reversed(self._middleware): app = mw(app)`).
Generic in the application type, since middlewares are arbitrary
`app -> app` callables. -/
def buildApp {A : Type} (mws : List (A → A)) (base : A) : A :=
  mws.reverse.foldl (fun acc mw => mw acc) base

/-! ### General lemmas about the matcher -/

theorem pathSplits_succ (n : Nat) : pathSplits (n + 1) = (n + 1) :: pathSplits n := by
  simp [pathSplits, List.range_succ]

theorem pathSplits_zero : pathSplits 0 = [0] := rfl

/-- Locating the greedy hit: if every longer candidate fails and `k`
succeeds, the longest-first search returns the value at `k`. -/
theorem findSome?_revRange_hit {β : Type} {f : Nat → Option β} {b : β} :
    ∀ m k : Nat, k ≤ m → (∀ j, k < j → j ≤ m → f j = none) → f k = some b →
      (pathSplits m).findSome? f = some b := by
  intro m
  induction m with
  | zero =>
    intro k hk _ hhit
    interval_cases k
    rw [pathSplits_zero, List.findSome?_cons, hhit]
  | succ n ih =>
    intro k hk hbig hhit
    rw [pathSplits_succ, List.findSome?_cons]
    rcases Nat.lt_or_ge k (n + 1) with hlt | hge
    · rw [hbig (n + 1) hlt (Nat.le_refl _)]
      exact ih k (Nat.lt_succ_iff.mp (Nat.lt_of_lt_of_le hlt (Nat.le_refl _)))
        (fun j h1 h2 => hbig j h1 (Nat.le_succ_of_le h2)) hhit
    · have : k = n + 1 := Nat.le_antisymm hk hge
      subst this
      rw [hhit]

theorem isPrefixOf_self_append (l s : List Char) : l.isPrefixOf (l ++ s) = true := by
  induction l with
  | nil => simp [List.isPrefixOf]
  | cons c cs ih => simpa [List.isPrefixOf] using ih

theorem eq_append_of_isPrefixOf {l s : List Char} (h : l.isPrefixOf s = true) :
    ∃ t, s = l ++ t := by
  induction l generalizing s with
  | nil => exact ⟨s, rfl⟩
  | cons c cs ih =>
    match s with
    | [] => simp [List.isPrefixOf] at h
    | x :: xs =>
      simp only [List.isPrefixOf, Bool.and_eq_true, beq_iff_eq] at h
      obtain ⟨rfl, h2⟩ := h
      obtain ⟨t, rfl⟩ := ih h2
      exact ⟨t, rfl⟩

theorem matchSegs_nil_eq (s : List Char) :
    matchSegs [] s = if s = [] ∨ s = ['\n'] then some [] else none := rfl

theorem matchSegs_lit_eq (l : List Char) (rest : List Seg) (s : List Char) :
    matchSegs (.lit l :: rest) s =
      if l.isPrefixOf s then matchSegs rest (s.drop l.length) else none := rfl

theorem matchSegs_param_eq (nm : String) (ty : ParamType) (rest : List Seg)
    (s : List Char) :
    matchSegs (.param nm ty :: rest) s =
      (pathSplits s.length).findSome? fun k =>
        if tyAccepts ty (s.take k) then
          (matchSegs rest (s.drop k)).map fun ps => (nm, ty, s.take k) :: ps
        else none := rfl

/-- Consuming a literal segment over its own text. -/
theorem matchSegs_lit_append (l : List Char) (rest : List Seg) (s : List Char) :
    matchSegs (.lit l :: rest) (l ++ s) = matchSegs rest s := by
  rw [matchSegs_lit_eq, if_pos (isPrefixOf_self_append l s), List.drop_left]

/-- A final literal segment matches exactly its own text, or its text
followed by one newline (the `$` rule); the capture list is empty. -/
theorem matchSegs_single_lit {b s : List Char}
    {ps : List (String × ParamType × List Char)}
    (h : matchSegs [.lit b] s = some ps) :
    (s = b ∨ s = b ++ ['\n']) ∧ ps = [] := by
  rw [matchSegs_lit_eq] at h
  by_cases hp : b.isPrefixOf s = true
  · rw [if_pos hp] at h
    obtain ⟨t, rfl⟩ := eq_append_of_isPrefixOf hp
    rw [List.drop_left, matchSegs_nil_eq] at h
    by_cases ht : t = [] ∨ t = ['\n']
    · rw [if_pos ht] at h
      injection h with h
      rcases ht with rfl | rfl
      · exact ⟨Or.inl (by simp), h.symm⟩
      · exact ⟨Or.inr rfl, h.symm⟩
    · rw [if_neg ht] at h
      exact absurd h (by simp)
  · rw [if_neg hp] at h
    exact absurd h (by simp)

theorem matchSegs_single_lit_self (b : List Char) :
    matchSegs [.lit b] b = some [] := by
  have h := matchSegs_lit_append b [] []
  rw [List.append_nil] at h
  rw [h, matchSegs_nil_eq, if_pos (Or.inl rfl)]

/-- A final literal cannot match a strictly shorter string. -/
theorem matchSegs_single_lit_short {b s : List Char} (h : s.length < b.length) :
    matchSegs [.lit b] s = none := by
  cases heq : matchSegs [.lit b] s with
  | none => rfl
  | some ps =>
    obtain ⟨hs, -⟩ := matchSegs_single_lit heq
    rcases hs with rfl | rfl
    · exact absurd h (Nat.lt_irrefl _)
    · simp only [List.length_append, List.length_cons, List.length_nil] at h
      omega

/-- A final literal needs a string of its own length, or one longer by the
optional trailing newline. -/
theorem matchSegs_single_lit_badlen {b s : List Char}
    (h1 : s.length ≠ b.length) (h2 : s.length ≠ b.length + 1) :
    matchSegs [.lit b] s = none := by
  cases heq : matchSegs [.lit b] s with
  | none => rfl
  | some ps =>
    obtain ⟨hs, -⟩ := matchSegs_single_lit heq
    rcases hs with rfl | rfl
    · exact absurd rfl h1
    · simp only [List.length_append, List.length_cons, List.length_nil] at h2
      omega

theorem intLex_nil : intLex [] = false := rfl

theorem intLex_frac_head (xs : List Char) : intLex ('7' :: '.' :: xs) = false := by
  show (if ('7' : Char) = '-' then digitsLex ('.' :: xs)
        else digitsLex ('7' :: '.' :: xs)) = false
  rw [if_neg (by decide)]
  show (!(('7' : Char) :: '.' :: xs).isEmpty
        && (('7' : Char) :: '.' :: xs).all isDigitChar) = false
  simp only [List.all_cons, Bool.and_eq_false_iff]
  right; right; left
  decide

theorem intLex_alpha_head (xs : List Char) : intLex ('a' :: xs) = false := by
  show (if ('a' : Char) = '-' then digitsLex xs
        else digitsLex ('a' :: xs)) = false
  rw [if_neg (by decide)]
  show (!(('a' : Char) :: xs).isEmpty && (('a' : Char) :: xs).all isDigitChar) = false
  simp only [List.all_cons, Bool.and_eq_false_iff]
  right; left
  decide

/-- Greedy match of an `int` slot followed by a final literal on the text
`-7` + literal: the capture is exactly `-7`. -/
theorem matchSegs_int_lit_neg7 (nm : String) (b : List Char) :
    matchSegs [.param nm .int, .lit b] ('-' :: '7' :: b) =
      some [(nm, .int, ['-', '7'])] := by
  rw [matchSegs_param_eq]
  have hlen : ('-' :: '7' :: b).length = b.length + 2 := by simp
  rw [hlen]
  apply findSome?_revRange_hit (b.length + 2) 2 (by omega)
  · intro j h1 h2
    by_cases hacc : tyAccepts .int (('-' :: '7' :: b).take j) = true
    · rw [if_pos hacc]
      have hd : (('-' :: '7' :: b).drop j).length = b.length + 2 - j := by
        rw [List.length_drop]; simp
      rw [matchSegs_single_lit_badlen (by omega) (by omega)]
      rfl
    · rw [if_neg hacc]
  · have ht : ('-' :: '7' :: b).take 2 = ['-', '7'] := rfl
    have hd : ('-' :: '7' :: b).drop 2 = b := rfl
    rw [ht, hd, if_pos (by decide), matchSegs_single_lit_self]
    rfl

/-- An `int` slot followed by a final literal rejects `7.5` + literal. -/
theorem matchSegs_int_lit_frac (nm : String) (b : List Char) :
    matchSegs [.param nm .int, .lit b] ('7' :: '.' :: '5' :: b) = none := by
  rw [matchSegs_param_eq, List.findSome?_eq_none_iff]
  intro k _
  match k with
  | 0 =>
    rw [show ('7' :: '.' :: '5' :: b).take 0 = [] from rfl, if_neg (by decide)]
  | 1 =>
    have ht : ('7' :: '.' :: '5' :: b).take 1 = ['7'] := rfl
    have hd : ('7' :: '.' :: '5' :: b).drop 1 = '.' :: '5' :: b := rfl
    rw [ht, hd, if_pos (by decide)]
    rw [matchSegs_single_lit_badlen (by simp only [List.length_cons]; omega)
      (by simp only [List.length_cons]; omega)]
    rfl
  | Nat.succ (Nat.succ k) =>
    have ht : ('7' :: '.' :: '5' :: b).take (k + 2) = '7' :: '.' :: (('5' :: b).take k) := by
      simp [List.take_succ_cons]
    have : tyAccepts .int (('7' :: '.' :: '5' :: b).take (k + 2)) = false := by
      rw [ht]
      exact intLex_frac_head _
    rw [if_neg (by rw [this]; exact Bool.false_ne_true)]

/-- An `int` slot followed by a final literal rejects `abc` + literal. -/
theorem matchSegs_int_lit_alpha (nm : String) (b : List Char) :
    matchSegs [.param nm .int, .lit b] ('a' :: 'b' :: 'c' :: b) = none := by
  rw [matchSegs_param_eq, List.findSome?_eq_none_iff]
  intro k _
  match k with
  | 0 =>
    rw [show ('a' :: 'b' :: 'c' :: b).take 0 = [] from rfl, if_neg (by decide)]
  | Nat.succ k =>
    have ht : ('a' :: 'b' :: 'c' :: b).take (k + 1) = 'a' :: (('b' :: 'c' :: b).take k) := by
      simp [List.take_succ_cons]
    have : tyAccepts .int (('a' :: 'b' :: 'c' :: b).take (k + 1)) = false := by
      rw [ht]
      exact intLex_alpha_head _
    rw [if_neg (by rw [this]; exact Bool.false_ne_true)]

/-! ### Full-string coverage (for the anchoring claim) -/

/-- `Consumes segs s` says the compiled pattern accounts for the whole
string `s`: `s` splits into consecutive pieces, one per segment, with each
literal matching verbatim and each parameter slot matching a lexeme its
sub-pattern accepts. -/
inductive Consumes : List Seg → List Char → Prop
  | nil : Consumes [] []
  | lit (l : List Char) {rest : List Seg} {s : List Char} :
      Consumes rest s → Consumes (.lit l :: rest) (l ++ s)
  | param (nm : String) (ty : ParamType) {c : List Char} {rest : List Seg}
      {s : List Char} :
      tyAccepts ty c = true → Consumes rest s → Consumes (.param nm ty :: rest) (c ++ s)

/-- Soundness of the matcher against full-string coverage: a successful
match covers the entire path, or the entire path minus one final newline
(the `$` concession). -/
theorem matchSegs_consumes {segs : List Seg} :
    ∀ {s : List Char} {caps}, matchSegs segs s = some caps →
      Consumes segs s ∨ ∃ s0, s = s0 ++ ['\n'] ∧ Consumes segs s0 := by
  induction segs with
  | nil =>
    intro s caps h
    rw [matchSegs_nil_eq] at h
    split at h
    · rename_i hs
      rcases hs with rfl | rfl
      · exact Or.inl Consumes.nil
      · exact Or.inr ⟨[], rfl, Consumes.nil⟩
    · exact absurd h (by simp)
  | cons seg rest ih =>
    intro s caps h
    cases seg with
    | lit l =>
      rw [matchSegs_lit_eq] at h
      split at h
      · rename_i hp
        obtain ⟨t, rfl⟩ := eq_append_of_isPrefixOf hp
        rw [List.drop_left] at h
        rcases ih h with hc | ⟨t0, rfl, hc⟩
        · exact Or.inl (Consumes.lit l hc)
        · exact Or.inr ⟨l ++ t0, by rw [List.append_assoc], Consumes.lit l hc⟩
      · exact absurd h (by simp)
    | param nm ty =>
      rw [matchSegs_param_eq] at h
      obtain ⟨k, hk, hfk⟩ := List.exists_of_findSome?_eq_some h
      by_cases hacc : tyAccepts ty (s.take k) = true
      · rw [if_pos hacc] at hfk
        cases hrest : matchSegs rest (s.drop k) with
        | none => rw [hrest] at hfk; exact absurd hfk (by simp)
        | some ps =>
          rcases ih hrest with hc | ⟨t0, hdrop, hc⟩
          · refine Or.inl ?_
            have hcons := Consumes.param nm ty hacc hc
            rwa [List.take_append_drop] at hcons
          · refine Or.inr ⟨s.take k ++ t0, ?_, Consumes.param nm ty hacc hc⟩
            calc s = s.take k ++ s.drop k := (List.take_append_drop _ _).symm
              _ = s.take k ++ (t0 ++ ['\n']) := by rw [hdrop]
              _ = (s.take k ++ t0) ++ ['\n'] := by rw [List.append_assoc]
      · rw [if_neg hacc] at hfk
        exact absurd hfk (by simp)

/-! ### Characterizing `Router.match` -/

/-- A route qualifies for a lookup when its (uppercased) method equals the
uppercased lookup method and its compiled pattern matches the path. -/
def qualifies (m p : String) (r : Route H) : Prop :=
  r.method = pyUpper m ∧ (r.matchPath p).isSome

theorem findMatch_some_spec {H : Type} {m p : String} :
    ∀ {l : List (Route H)} {r : Route H} {ps : List (String × PValue)},
      (l.findSome? fun r =>
        if r.method = pyUpper m then (r.matchPath p).map fun ps => (r, ps)
        else none) = some (r, ps) →
      r.method = pyUpper m ∧ r.matchPath p = some ps ∧
        ∃ pre post, l = pre ++ r :: post ∧ ∀ r2 ∈ pre, ¬qualifies m p r2 := by
  intro l
  induction l with
  | nil => intro r ps h; simp at h
  | cons a t ih =>
    intro r ps h
    rw [List.findSome?_cons] at h
    by_cases hm : a.method = pyUpper m
    · rw [if_pos hm] at h
      cases hmp : a.matchPath p with
      | some ps0 =>
        rw [hmp] at h
        simp only [Option.map_some'] at h
        injection h with h
        injection h with h1 h2
        subst h1; subst h2
        exact ⟨hm, hmp, [], t, rfl, by simp⟩
      | none =>
        rw [hmp] at h
        simp only [Option.map_none'] at h
        obtain ⟨q1, q2, pre, post, rfl, hpre⟩ := ih h
        refine ⟨q1, q2, a :: pre, post, rfl, ?_⟩
        intro r2 hr2
        rcases List.mem_cons.mp hr2 with rfl | hr2
        · intro hq
          obtain ⟨-, h2⟩ := hq
          rw [hmp] at h2
          exact absurd h2 (by simp)
        · exact hpre r2 hr2
    · rw [if_neg hm] at h
      obtain ⟨q1, q2, pre, post, rfl, hpre⟩ := ih h
      refine ⟨q1, q2, a :: pre, post, rfl, ?_⟩
      intro r2 hr2
      rcases List.mem_cons.mp hr2 with rfl | hr2
      · exact fun hq => hm hq.1
      · exact hpre r2 hr2

theorem findMatch_none_iff {H : Type} (rt : Router H) (m p : String) :
    rt.findMatch m p = none ↔ ∀ r ∈ rt.routes, ¬qualifies m p r := by
  unfold Router.findMatch
  rw [List.findSome?_eq_none_iff]
  constructor
  · intro h r hr hq
    have := h r hr
    rw [if_pos hq.1] at this
    rcases Option.isSome_iff_exists.mp hq.2 with ⟨ps, hps⟩
    rw [hps] at this
    exact absurd this (by simp)
  · intro h r hr
    by_cases hm : r.method = pyUpper m
    · rw [if_pos hm]
      cases hmp : r.matchPath p with
      | some ps => exact absurd ⟨hm, by rw [hmp]; rfl⟩ (h r hr)
      | none => simp
    · rw [if_neg hm]

/-! ### Captured names are the placeholder names -/

/-- The parameter names of a compiled pattern, in group order. -/
def segParamNames : List Seg → List String
  | [] => []
  | .lit _ :: rest => segParamNames rest
  | .param nm _ :: rest => nm :: segParamNames rest

theorem matchSegs_keys {segs : List Seg} :
    ∀ {s : List Char} {caps}, matchSegs segs s = some caps →
      caps.map (·.1) = segParamNames segs := by
  induction segs with
  | nil =>
    intro s caps h
    rw [matchSegs_nil_eq] at h
    split at h
    · injection h with h; subst h; rfl
    · exact absurd h (by simp)
  | cons seg rest ih =>
    intro s caps h
    cases seg with
    | lit l =>
      rw [matchSegs_lit_eq] at h
      split at h
      · exact ih h
      · exact absurd h (by simp)
    | param nm ty =>
      rw [matchSegs_param_eq] at h
      obtain ⟨k, hk, hfk⟩ := List.exists_of_findSome?_eq_some h
      by_cases hacc : tyAccepts ty (s.take k) = true
      · rw [if_pos hacc] at hfk
        cases hrest : matchSegs rest (s.drop k) with
        | none => rw [hrest] at hfk; exact absurd hfk (by simp)
        | some ps =>
          rw [hrest] at hfk
          simp only [Option.map_some'] at hfk
          injection hfk with hfk
          subst hfk
          simp only [List.map_cons, segParamNames]
          rw [ih hrest]
      · rw [if_neg hacc] at hfk
        exact absurd hfk (by simp)

/-! ### Compilation lemmas -/

theorem except_map_ok {ε α β : Type} {f : α → β} {e : Except ε α} {b : β}
    (h : e.map f = .ok b) : ∃ a, e = .ok a ∧ f a = b := by
  cases e with
  | error e2 => exact absurd h (by simp [Except.map])
  | ok a =>
    refine ⟨a, rfl, ?_⟩
    simp only [Except.map] at h
    injection h

theorem except_map_error {ε α β : Type} {f : α → β} {e : Except ε α} {m : ε}
    (h : e = .error m) : e.map f = .error m := by
  subst h; rfl

/-- The `(name, effective type token)` pairs among a token list. -/
def tokParams (ts : List ScanTok) : List (String × String) :=
  ts.filterMap fun t =>
    match t with
    | .inr pr => some pr
    | .inl _ => none

theorem scanParams_eq_tokParams (s : List Char) :
    scanParams s = tokParams (scanTokens s []) := rfl

/-- Compiled placeholder names agree with the scanned placeholder names. -/
theorem segsOfTokens_names : ∀ {ts : List ScanTok} {segs : List Seg},
    segsOfTokens ts = .ok segs → segParamNames segs = (tokParams ts).map (·.1) := by
  intro ts
  induction ts with
  | nil =>
    intro segs h
    injection h with h
    subst h
    rfl
  | cons t rest ih =>
    intro segs h
    cases t with
    | inl l =>
      obtain ⟨segs0, h0, rfl⟩ := except_map_ok h
      simp only [segParamNames, tokParams, List.filterMap_cons]
      exact ih h0
    | inr pr =>
      obtain ⟨nm, tk⟩ := pr
      simp only [segsOfTokens] at h
      cases hp : parseParamType tk with
      | none => rw [hp] at h; exact absurd h (by simp)
      | some ty =>
        rw [hp] at h
        obtain ⟨segs0, h0, rfl⟩ := except_map_ok h
        simp only [segParamNames, tokParams, List.filterMap_cons, List.map_cons]
        rw [ih h0]
        rfl

/-- When some scanned placeholder has an unknown type token, compilation
fails with the `Unknown path parameter type` error naming such a token. -/
theorem segsOfTokens_error_of_unknown : ∀ {ts : List ScanTok},
    (∃ pr ∈ tokParams ts, parseParamType pr.2 = none) →
    ∃ tok, parseParamType tok = none ∧ (∃ pr ∈ tokParams ts, pr.2 = tok) ∧
      segsOfTokens ts = .error (unknownTypeMsg tok) := by
  intro ts
  induction ts with
  | nil => intro h; simp [tokParams] at h
  | cons t rest ih =>
    intro h
    cases t with
    | inl l =>
      have hp : tokParams (.inl l :: rest) = tokParams rest := by
        simp [tokParams, List.filterMap_cons]
      rw [hp] at h
      obtain ⟨tok, h1, h2, h3⟩ := ih h
      refine ⟨tok, h1, by rw [hp]; exact h2, ?_⟩
      simp only [segsOfTokens]
      rw [except_map_error h3]
    | inr pr =>
      obtain ⟨nm, tk⟩ := pr
      have hp : tokParams (.inr (nm, tk) :: rest) = (nm, tk) :: tokParams rest := by
        simp [tokParams, List.filterMap_cons]
      by_cases hu : parseParamType tk = none
      · refine ⟨tk, hu, ⟨(nm, tk), by rw [hp]; exact List.mem_cons_self _ _, rfl⟩, ?_⟩
        simp only [segsOfTokens]
        rw [hu]
      · rw [hp] at h
        obtain ⟨pr2, hmem, hnone⟩ := h
        have hmem2 : pr2 ∈ tokParams rest := by
          rcases List.mem_cons.mp hmem with rfl | hm
          · exact absurd hnone hu
          · exact hm
        obtain ⟨tok, h1, ⟨pr3, hm3, he3⟩, h3⟩ := ih ⟨pr2, hmem2, hnone⟩
        refine ⟨tok, h1, ⟨pr3, by rw [hp]; exact List.mem_cons_of_mem _ hm3, he3⟩, ?_⟩
        simp only [segsOfTokens]
        cases hpt : parseParamType tk with
        | none => exact absurd hpt hu
        | some ty => exact except_map_error h3

/-! ### Invocation lemmas -/

theorem lookup_eq_none_of_not_mem {pname : String} :
    ∀ {l : List (String × PValue)}, pname ∉ l.map (·.1) → l.lookup pname = none := by
  intro l
  induction l with
  | nil => intro _; rfl
  | cons kv t ih =>
    intro h
    obtain ⟨k, v⟩ := kv
    simp only [List.map_cons, List.mem_cons] at h
    push_neg at h
    obtain ⟨h1, h2⟩ := h
    simp only [List.lookup]
    have hb : (pname == k) = false := by
      simp only [beq_eq_false_iff_ne, ne_eq]
      exact h1
    rw [hb]
    exact ih h2

/-- When a required (no-default) declared parameter is bound by none of the
keyword arguments, the Python call raises before the handler body runs. -/
theorem pyCallHandler_missing {h : Handler} {kwargs : List (String × Arg)}
    {pname : String}
    (hp : ∃ p ∈ h.params, p.name = pname ∧ p.hasDefault = false)
    (hk : ∀ kv ∈ kwargs, kv.1 ≠ pname) :
    ∃ e, pyCallHandler h kwargs = .exn e := by
  obtain ⟨p0, hmem, hname, hdef⟩ := hp
  have hsat : (!p0.hasDefault && kwargs.all fun kv => kv.1 != p0.name) = true := by
    rw [hdef]
    simp only [Bool.not_false, Bool.true_and, List.all_eq_true]
    intro kv hkv
    rw [hname]
    exact bne_iff_ne.mpr (hk kv hkv)
  have hsome : (h.params.find?
      fun p => !p.hasDefault && kwargs.all fun kv => kv.1 != p.name).isSome :=
    List.find?_isSome.mpr ⟨p0, hmem, hsat⟩
  obtain ⟨p1, hp1⟩ := Option.isSome_iff_exists.mp hsome
  refine ⟨"TypeError: " ++ h.hname ++ "() missing required argument: " ++ p1.name, ?_⟩
  unfold pyCallHandler
  rw [hp1]

/-- The dispatcher's call-argument map binds only resolved path parameters
and the reserved `request` name, so a required parameter that is neither
resolves to a missing-argument failure whatever the handler body does. -/
theorem invoke_missing_param {app : BlazeAPI} {h : Handler} {req : Request}
    {pparams : List (String × PValue)} {pname : String} {meta : HandlerMeta}
    (hm : findMeta app.handlerMeta h.hid = some meta)
    (hparam : ∃ p ∈ h.params, p.name = pname ∧ p.hasDefault = false)
    (hreq : pname ≠ "request")
    (hnone : pparams.lookup pname = none) :
    ∃ e, app.invoke h req pparams = .exn e := by
  unfold BlazeAPI.invoke
  rw [hm]
  apply pyCallHandler_missing hparam
  intro kv hkv
  rcases List.mem_append.mp hkv with h1 | h2
  · obtain ⟨n, hn, hmap⟩ := List.mem_filterMap.mp h1
    obtain ⟨v, hv, hkv2⟩ := Option.map_eq_some'.mp hmap
    subst hkv2
    intro heq
    simp only at heq
    subst heq
    rw [hnone] at hv
    exact absurd hv (by simp)
  · by_cases hw : meta.wants_request = true
    · rw [if_pos hw] at h2
      rcases List.mem_singleton.mp h2 with rfl
      exact fun he => hreq he.symm
    · rw [if_neg hw] at h2
      exact absurd h2 (by simp)

/-- Any exception escaping invocation becomes the 500 response, with the
trace attached in debug mode, and the dispatcher still reports which
handler it attempted. -/
theorem handle_exn_500 {app : BlazeAPI} {scope : Scope} {route : Route Handler}
    {pparams : List (String × PValue)} {msg : String}
    (h1 : scope.stype = "http")
    (h2 : app.router.findMatch scope.method scope.path = some (route, pparams))
    (h3 : app.invoke route.handler ⟨scope, pparams⟩ pparams = .exn msg) :
    app.handle scope =
      ⟨some ⟨500, .jsonBody (.obj ([("detail", .s "Internal Server Error")]
          ++ (if app.debug then [("traceback", .s (formatTraceback msg))] else [])))⟩,
        some route.handler.hid⟩ := by
  unfold BlazeAPI.handle
  rw [if_neg (by rw [h1]; exact fun he => he rfl)]
  rw [h2]
  simp only [h3]

/-! ### Concrete fixtures (sample handlers, routes and applications) -/

/-- A handler body that returns successfully whatever it is passed. -/
def okBody : List (String × Arg) → HandlerResult := fun _ => .ok (.other "ok")

/-- `async def get_item(request) -> Item` with `Item` a pydantic model. -/
def itemModelHandler : Handler :=
  { hid := 1, hname := "get_item", params := [⟨"request", some .objectTy, false⟩],
    ret := some (.baseModel "Item"), isCoroutine := true, body := okBody }

/-- `async def list_items(request, page: int) -> JSONResponse`: a primitive
non-path parameter. -/
def primParamHandler : Handler :=
  { hid := 2, hname := "list_items",
    params := [⟨"request", some .objectTy, false⟩, ⟨"page", some .intTy, false⟩],
    ret := some .jsonResponse, isCoroutine := true, body := okBody }

/-- The same shape with the parameter annotated by a pydantic model. -/
def modelParamHandler : Handler :=
  { hid := 3, hname := "list_items2",
    params := [⟨"request", some .objectTy, false⟩,
               ⟨"query", some (.baseModel "QueryModel"), false⟩],
    ret := some .jsonResponse, isCoroutine := true, body := okBody }

/-- `async def plain(request) -> JSONResponse`. -/
def plainHandler : Handler :=
  { hid := 9, hname := "plain", params := [⟨"request", some .objectTy, false⟩],
    ret := some .jsonResponse, isCoroutine := true, body := okBody }

/-- `async def boom(request) -> Response: raise RuntimeError("kaboom")`. -/
def boomHandler : Handler :=
  { hid := 4, hname := "boom", params := [⟨"request", some .objectTy, false⟩],
    ret := some .response, isCoroutine := true,
    body := fun _ => .exn "RuntimeError: kaboom" }

/-- `def needs_q(request, q: int) -> JSONResponse` with `q` neither a path
placeholder of its template nor defaulted. -/
def needsQHandler : Handler :=
  { hid := 5, hname := "needs_q",
    params := [⟨"request", some .objectTy, false⟩, ⟨"q", some .intTy, false⟩],
    ret := some .jsonResponse, isCoroutine := false, body := okBody }

def xRoute : Route Handler :=
  { method := "GET", path := "/x", handler := primParamHandler,
    segs := [Seg.lit "/x".data] }

/-- The application state after the C2 registration goes through. -/
def appPrim : BlazeAPI :=
  { router := ⟨[xRoute]⟩, strict := true, debug := false,
    handlerMeta := [(2, mkHandlerMeta primParamHandler)] }

def boomRoute : Route Handler :=
  { method := "GET", path := "/boom", handler := boomHandler,
    segs := [Seg.lit "/boom".data] }

def appBoom : BlazeAPI :=
  { router := ⟨[boomRoute]⟩, strict := false, debug := false,
    handlerMeta := [(4, mkHandlerMeta boomHandler)] }

def qRoute : Route Handler :=
  { method := "GET", path := "/x", handler := needsQHandler,
    segs := [Seg.lit "/x".data] }

def appQ : BlazeAPI :=
  { router := ⟨[qRoute]⟩, strict := false, debug := false,
    handlerMeta := [(5, mkHandlerMeta needsQHandler)] }

def healthRoute : Route Handler :=
  { method := "GET", path := "/health", handler := plainHandler,
    segs := [Seg.lit "/health".data] }

/-- `/items/{id:int}` compiled. -/
def itemsRoute : Route Handler :=
  { method := "GET", path := "/items/{id:int}", handler := plainHandler,
    segs := [Seg.lit "/items/".data, Seg.param "id" .int, Seg.lit []] }

theorem compile_slash_x : compilePattern "/x" = .ok [Seg.lit "/x".data] := by
  simp [compilePattern, scanTokens, readParamTok, expectChar, readWord,
    segsOfTokens, Except.map]

theorem scanParams_slash_x : scanParams ['/', 'x'] = [] := by
  simp [scanParams, scanTokens, readParamTok, expectChar, readWord, tokParams,
    List.filterMap]

/-! ### The claims -/

/-- C1: the claim says strict-mode registration accepts a handler whose
declared return type is a structured (model-shaped) type.  It does not:
`BlazeAPI._route` runs `app.py`'s `_validate_return_type`, which admits
only `Response` subclasses, so a handler returning a pydantic model is
rejected at registration — while the repository's own strict validator
`validation.validate_handler_signature` (exercised only by the tests)
accepts exactly that handler.  This theorem evaluates both on the same
concrete handler, exhibiting the divergence. -/
theorem C1_strict_model_return_rejected :
    BlazeAPI.route (BlazeAPI.mk' true false) "GET" "/item" itemModelHandler =
        .error "Handler get_item return type must be Response or a subclass, got Item"
      ∧ validate_handler_signature itemModelHandler "/item" = .ok () :=
  ⟨rfl, rfl⟩

theorem validate_prim_param_rejected :
    ∃ e, validate_handler_signature primParamHandler "/x" = .error e := by
  refine ⟨"Strict-mode violation in handler list_items: Non-path parameter page must be a BaseModel subclass.", ?_⟩
  simp only [validate_handler_signature, validateParams, scanParams_slash_x]
  rfl

/-- C2: the claim says a strict-mode registration fails when a non-path
parameter has a primitive annotation.  It does not: `BlazeAPI._route`
checks only the return annotation, so registration succeeds and the route
is added; the repository's `validate_handler_signature` — which the tests
call directly, and which registration never invokes — rejects the handler
and accepts its model-annotated twin, matching the claim. -/
theorem C2_strict_primitive_param_registered :
    BlazeAPI.route (BlazeAPI.mk' true false) "GET" "/x" primParamHandler = .ok appPrim
      ∧ appPrim.router.routes.map (fun r => r.path) = ["/x"]
      ∧ (∃ e, validate_handler_signature primParamHandler "/x" = .error e)
      ∧ validate_handler_signature modelParamHandler "/x" = .ok () := by
  have hmk : Route.make "GET" "/x" primParamHandler = .ok xRoute := by
    unfold Route.make
    rw [compile_slash_x]
    rfl
  refine ⟨?_, rfl, validate_prim_param_rejected, ?_⟩
  · show ((BlazeAPI.mk' true false).router.add_route "GET" "/x" primParamHandler).map _
      = .ok appPrim
    unfold Router.add_route
    rw [hmk]
    rfl
  · simp only [validate_handler_signature, validateParams, scanParams_slash_x]
    rfl

/-- C3: `Router.match` is first-match-wins in registration order, returns
the converted parameter map of the winning route, returns no match exactly
when no route has both the (case-insensitively compared, upper-normalized)
method and a matching pattern, and never returns a route whose stored
method differs from the normalized lookup method. -/
theorem C3_router_first_match {H : Type} (rt : Router H) (m p : String) :
    (∀ (r : Route H) (ps : List (String × PValue)),
        rt.findMatch m p = some (r, ps) →
          r.method = pyUpper m ∧ r.matchPath p = some ps ∧
            ∃ pre post, rt.routes = pre ++ r :: post ∧ ∀ r2 ∈ pre, ¬qualifies m p r2)
      ∧ (rt.findMatch m p = none ↔ ∀ r ∈ rt.routes, ¬qualifies m p r)
      ∧ (∀ (r : Route H) (ps : List (String × PValue)) (M : String),
          r.method = pyUpper M → pyUpper M ≠ pyUpper m →
            rt.findMatch m p ≠ some (r, ps)) := by
  refine ⟨fun r ps h => findMatch_some_spec h, findMatch_none_iff rt m p, ?_⟩
  intro r ps M hM hne h
  obtain ⟨hmeth, -, -⟩ := findMatch_some_spec h
  exact hne (hM ▸ hmeth)

/-- A two-route router: the same method and template registered twice. -/
def twinRouter : Router Handler :=
  ⟨[{ method := "GET", path := "/a", handler := plainHandler,
      segs := [Seg.lit "/a".data] },
    { method := "GET", path := "/a", handler := boomHandler,
      segs := [Seg.lit "/a".data] }]⟩

theorem C3_witness :
    ∃ r : Route Handler, twinRouter.findMatch "get" "/a" = some (r, [])
      ∧ r.method = pyUpper "get" ∧ r.matchPath "/a" = some []
      ∧ ∃ pre post, twinRouter.routes = pre ++ r :: post ∧ pre = [] := by
  have h : twinRouter.findMatch "get" "/a" =
      some (twinRouter.routes.head (by simp [twinRouter]), []) := by rfl
  obtain ⟨h1, h2, pre, post, hsplit, hpre⟩ :=
    (C3_router_first_match twinRouter "get" "/a").1 _ [] h
  refine ⟨_, h, h1, h2, pre, post, hsplit, ?_⟩
  match pre, hsplit with
  | [], _ => rfl
  | q :: pre2, hs =>
    exfalso
    apply hpre q (List.mem_cons_self _ _)
    have hq : q = twinRouter.routes.head (by simp [twinRouter]) := by
      have := congrArg (fun l => l.head?) hs
      simpa [twinRouter] using this.symm
    rw [hq]
    exact ⟨rfl, by rw [show (twinRouter.routes.head (by simp [twinRouter])).matchPath "/a"
      = some [] from rfl]; rfl⟩

/-- C4: a template holding a placeholder whose type token is outside the
five built-ins fails compilation at registration time with the
`Unknown path parameter type` error naming the token; `Route` construction
and `Router.add_route` propagate the same error, so the route is never
appended and the failure cannot be deferred to request matching. -/
theorem C4_unknown_type_token_fails (t : String)
    (h : ∃ pr ∈ scanParams t.data, parseParamType pr.2 = none) :
    ∃ tok, parseParamType tok = none ∧ (∃ pr ∈ scanParams t.data, pr.2 = tok) ∧
      compilePattern t = .error (unknownTypeMsg tok) ∧
      (∀ (hd : Handler) (m : String),
        Route.make m t hd = .error (unknownTypeMsg tok)) ∧
      (∀ (rt : Router Handler) (hd : Handler) (m : String),
        rt.add_route m t hd = .error (unknownTypeMsg tok)) := by
  rw [scanParams_eq_tokParams] at h
  obtain ⟨tok, h1, h2, h3⟩ := segsOfTokens_error_of_unknown h
  have hc : compilePattern t = .error (unknownTypeMsg tok) := h3
  refine ⟨tok, h1, by rw [scanParams_eq_tokParams]; exact h2, hc, ?_, ?_⟩
  · intro hd m
    unfold Route.make
    exact except_map_error hc
  · intro rt hd m
    unfold Router.add_route Route.make
    rw [except_map_error hc]
    rfl

theorem scanParams_bogus :
    scanParams "/x/{v:bogus}".data = [("v", "bogus")] := by
  simp [scanParams, scanTokens, readParamTok, expectChar, readWord, tokParams,
    List.takeWhile, List.dropWhile, isWordChar, isDigitChar, List.filterMap]

theorem C4_witness :
    (∃ pr ∈ scanParams "/x/{v:bogus}".data, parseParamType pr.2 = none)
      ∧ ∃ tok, compilePattern "/x/{v:bogus}" = .error (unknownTypeMsg tok) := by
  have hex : ∃ pr ∈ scanParams "/x/{v:bogus}".data, parseParamType pr.2 = none := by
    rw [scanParams_bogus]
    exact ⟨("v", "bogus"), List.mem_singleton_self _, rfl⟩
  obtain ⟨tok, -, -, h3, -, -⟩ := C4_unknown_type_token_fails "/x/{v:bogus}" hex
  exact ⟨hex, tok, h3⟩

/-- C5: for every template whose compiled pattern holds exactly one
placeholder, of type `int`, matching the path with `-7` in the placeholder
position succeeds and binds the integer `-7` to the placeholder name,
while `7.5` or `abc` in that position yields no match (and no error — the
matcher returns the absence of a match). -/
theorem C5_int_placeholder (t : String) (hd : Handler) (r : Route Handler)
    (a b : List Char) (n : String)
    (hmk : Route.make "GET" t hd = .ok r)
    (hsegs : r.segs = [.lit a, .param n .int, .lit b]) :
    r.matchPath ⟨a ++ '-' :: '7' :: b⟩ = some [(n, .int (-7))]
      ∧ r.matchPath ⟨a ++ '7' :: '.' :: '5' :: b⟩ = none
      ∧ r.matchPath ⟨a ++ 'a' :: 'b' :: 'c' :: b⟩ = none := by
  unfold Route.matchPath
  rw [hsegs]
  refine ⟨?_, ?_, ?_⟩
  · show (matchSegs [Seg.lit a, Seg.param n .int, Seg.lit b]
        (a ++ '-' :: '7' :: b)).map _ = _
    rw [matchSegs_lit_append a [Seg.param n .int, Seg.lit b] ('-' :: '7' :: b),
      matchSegs_int_lit_neg7]
    show some [(n, convert .int ['-', '7'])] = some [(n, .int (-7))]
    rw [show convert .int ['-', '7'] = .int (-7) from by decide]
  · show (matchSegs [Seg.lit a, Seg.param n .int, Seg.lit b]
        (a ++ '7' :: '.' :: '5' :: b)).map _ = _
    rw [matchSegs_lit_append a [Seg.param n .int, Seg.lit b] ('7' :: '.' :: '5' :: b),
      matchSegs_int_lit_frac]
    rfl
  · show (matchSegs [Seg.lit a, Seg.param n .int, Seg.lit b]
        (a ++ 'a' :: 'b' :: 'c' :: b)).map _ = _
    rw [matchSegs_lit_append a [Seg.param n .int, Seg.lit b] ('a' :: 'b' :: 'c' :: b),
      matchSegs_int_lit_alpha]
    rfl

theorem make_items_route :
    Route.make "GET" "/items/{id:int}" plainHandler = .ok itemsRoute := by
  have hc : compilePattern "/items/{id:int}" =
      .ok [Seg.lit "/items/".data, Seg.param "id" .int, Seg.lit []] := by
    simp [compilePattern, scanTokens, readParamTok, expectChar, readWord,
      segsOfTokens, parseParamType, List.takeWhile, List.dropWhile, isWordChar,
      isDigitChar, Except.map]
  unfold Route.make
  rw [hc]
  rfl

theorem C5_witness :
    Route.make "GET" "/items/{id:int}" plainHandler = .ok itemsRoute
      ∧ itemsRoute.matchPath "/items/-7" = some [("id", .int (-7))]
      ∧ itemsRoute.matchPath "/items/7.5" = none
      ∧ itemsRoute.matchPath "/items/abc" = none := by
  have h5 := C5_int_placeholder "/items/{id:int}" plainHandler itemsRoute
    "/items/".data [] "id" make_items_route rfl
  refine ⟨make_items_route, ?_, ?_, ?_⟩
  · rw [show ("/items/-7" : String) = ⟨"/items/".data ++ '-' :: '7' :: []⟩ from by decide]
    exact h5.1
  · rw [show ("/items/7.5" : String) = ⟨"/items/".data ++ '7' :: '.' :: '5' :: []⟩
      from by decide]
    exact h5.2.1
  · rw [show ("/items/abc" : String) = ⟨"/items/".data ++ 'a' :: 'b' :: 'c' :: []⟩
      from by decide]
    exact h5.2.2

/-- C6 (amended): the matcher succeeds only when the compiled pattern
accounts for the entire path — except that, by CPython's `$` semantics,
one final newline may additionally be tolerated after the covered text.
In particular a path of which only a proper prefix matches the template
never matches, and for a fully-literal template the only accepted paths
are its own text and its text plus one trailing newline. -/
theorem C6_full_match_amended :
    (∀ (segs : List Seg) (s : List Char) caps, matchSegs segs s = some caps →
        Consumes segs s ∨ ∃ s0, s = s0 ++ ['\n'] ∧ Consumes segs s0)
      ∧ (∀ (l s : List Char) caps, matchSegs [.lit l] s = some caps →
          s = l ∨ s = l ++ ['\n']) :=
  ⟨fun _ _ _ h => matchSegs_consumes h,
   fun _ _ _ h => (matchSegs_single_lit h).1⟩

/-- C6 counterexample: the literal route `/health` also matches the path
`"/health\n"` — a matching path with an extra trailing character appended
still matches, because the compiled `$` anchor accepts a position just
before a final newline.  So "a matching path with extra trailing
characters appended does not match" fails on the code as stated. -/
theorem C6_counterexample :
    Route.make "GET" "/health" plainHandler = .ok healthRoute
      ∧ healthRoute.matchPath "/health" = some []
      ∧ healthRoute.matchPath "/health\n" = some []
      ∧ "/health\n" ≠ "/health" := by
  refine ⟨?_, rfl, rfl, by decide⟩
  have hc : compilePattern "/health" = .ok [Seg.lit "/health".data] := by
    simp [compilePattern, scanTokens, readParamTok, expectChar, readWord,
      segsOfTokens, Except.map]
  unfold Route.make
  rw [hc]
  rfl

/-- C7: on an HTTP exchange whose method and path match no registered
route, the dispatcher sends status 404 with the structured body
`{"detail": "Not Found"}`, and no handler invocation is attempted. -/
theorem C7_unmatched_404 (app : BlazeAPI) (scope : Scope)
    (h1 : scope.stype = "http")
    (h2 : app.router.findMatch scope.method scope.path = none) :
    app.handle scope =
      ⟨some ⟨404, .jsonBody (.obj [("detail", .s "Not Found")])⟩, none⟩ := by
  unfold BlazeAPI.handle
  rw [if_neg (by rw [h1]; exact fun he => he rfl), h2]

theorem C7_witness :
    (BlazeAPI.mk' false false).handle ⟨"http", "GET", "/nope"⟩ =
      ⟨some ⟨404, .jsonBody (.obj [("detail", .s "Not Found")])⟩, none⟩ :=
  C7_unmatched_404 (BlazeAPI.mk' false false) ⟨"http", "GET", "/nope"⟩ rfl rfl

/-- C8: when the matched handler's invocation raises, the dispatcher
catches the exception at its boundary and sends a 500 response whose body
carries `"detail": "Internal Server Error"`; in debug mode the body
additionally carries the formatted trace, and outside debug mode it
carries nothing else.  The dispatcher always produces a response here —
in this embedding `BlazeAPI.handle` is a total function into sent
responses, so the exception never escapes it, and the application state it
reads is unchanged, leaving other requests unaffected. -/
theorem C8_handler_exception_500 (app : BlazeAPI) (scope : Scope)
    (route : Route Handler) (pparams : List (String × PValue)) (msg : String)
    (h1 : scope.stype = "http")
    (h2 : app.router.findMatch scope.method scope.path = some (route, pparams))
    (h3 : app.invoke route.handler ⟨scope, pparams⟩ pparams = .exn msg) :
    ∃ body, app.handle scope =
        ⟨some ⟨500, .jsonBody (.obj body)⟩, some route.handler.hid⟩
      ∧ body.lookup "detail" = some (.s "Internal Server Error")
      ∧ (app.debug = true → body.lookup "traceback" = some (.s (formatTraceback msg)))
      ∧ (app.debug = false → body = [("detail", .s "Internal Server Error")])
      ∧ (app.handle scope).response.isSome := by
  refine ⟨[("detail", JVal.s "Internal Server Error")]
      ++ (if app.debug then [("traceback", JVal.s (formatTraceback msg))] else []),
    handle_exn_500 h1 h2 h3, ?_, ?_, ?_, ?_⟩
  · cases hdbg : app.debug <;> simp [hdbg, List.lookup]
  · intro hdbg
    simp [hdbg, List.lookup]
  · intro hdbg
    simp [hdbg]
  · rw [handle_exn_500 h1 h2 h3]
    rfl

theorem C8_witness :
    ∃ body, appBoom.handle ⟨"http", "GET", "/boom"⟩ =
        ⟨some ⟨500, .jsonBody (.obj body)⟩, some 4⟩
      ∧ body.lookup "detail" = some (.s "Internal Server Error") := by
  obtain ⟨body, hb, hd, -, -, -⟩ :=
    C8_handler_exception_500 appBoom ⟨"http", "GET", "/boom"⟩ boomRoute []
      "RuntimeError: kaboom" rfl rfl rfl
  exact ⟨body, hb, hd⟩

/-! ### A concrete middleware world for the ordering claim -/

/-- A request as middleware observes it, carrying the trace of the
middlewares it has passed through. -/
structure MwReq where
  seen : List String

/-- A response as middleware shapes it: headers, plus the trace the
innermost application recorded when the request reached it. -/
structure MwResp where
  headers : List (String × String)
  trace : List String

/-- The application type the middlewares of this model wrap. -/
def MwApp : Type := MwReq → MwResp

/-- A middleware that adds one response header (the shape of the test
middleware in `test_blazeapi.py`). -/
def addHeaderMw (hk hv : String) : MwApp → MwApp :=
  fun inner req =>
    let r := inner req
    { r with headers := (hk, hv) :: r.headers }

/-- A middleware that stamps its tag on the request before delegating. -/
def tagMw (t : String) : MwApp → MwApp :=
  fun inner req => inner { req with seen := req.seen ++ [t] }

/-- An innermost application that records the request trace it received. -/
def recorderApp : MwApp := fun req => { headers := [], trace := req.seen }

/-- C9: `_build_app` wraps the dispatcher with the registered middlewares
in reverse registration order, so the first-registered middleware is
outermost: composition equals the right fold, the head middleware is
applied last (outermost), a response header added by the first-registered
middleware survives whatever the later-registered middlewares do, and the
request reaches the middlewares in registration order (the
first-registered one sees it before any later one). -/
theorem C9_middleware_order :
    (∀ (A : Type) (mws : List (A → A)) (base : A),
        buildApp mws base = mws.foldr (fun mw acc => mw acc) base)
      ∧ (∀ (A : Type) (mw : A → A) (rest : List (A → A)) (base : A),
          buildApp (mw :: rest) base = mw (buildApp rest base))
      ∧ (∀ (hk hv : String) (rest : List (MwApp → MwApp)) (base : MwApp) (req : MwReq),
          (hk, hv) ∈ (buildApp (addHeaderMw hk hv :: rest) base req).headers)
      ∧ (∀ (ts : List String) (req : MwReq),
          (buildApp (ts.map tagMw) recorderApp req).trace = req.seen ++ ts) := by
  have hfold : ∀ (A : Type) (mws : List (A → A)) (base : A),
      buildApp mws base = mws.foldr (fun mw acc => mw acc) base := by
    intro A mws base
    unfold buildApp
    rw [List.foldl_reverse]
  have hcons : ∀ (A : Type) (mw : A → A) (rest : List (A → A)) (base : A),
      buildApp (mw :: rest) base = mw (buildApp rest base) := by
    intro A mw rest base
    rw [hfold, hfold, List.foldr_cons]
  refine ⟨hfold, hcons, ?_, ?_⟩
  · intro hk hv rest base req
    rw [hcons]
    exact List.mem_cons_self _ _
  · intro ts
    induction ts with
    | nil => intro req; simp [buildApp, recorderApp]
    | cons t rest ih =>
      intro req
      rw [List.map_cons, hcons]
      show (buildApp (rest.map tagMw) recorderApp { req with seen := req.seen ++ [t] }).trace
        = req.seen ++ t :: rest
      rw [ih]
      simp

/-- C10: a registered handler declaring a defaultless parameter whose name
is neither a placeholder of its route's template nor `request` makes every
request matched to that route answer 500: the dispatcher's call-argument
map binds only resolved path parameters (plus `request`), so the call
fails with a missing-argument error caught at the dispatcher boundary. -/
theorem C10_unbound_required_param_500 (app : BlazeAPI) (scope : Scope)
    (route : Route Handler) (pparams : List (String × PValue)) (pname : String)
    (h1 : scope.stype = "http")
    (h2 : app.router.findMatch scope.method scope.path = some (route, pparams))
    (hw : compilePattern route.path = .ok route.segs)
    (hmeta : findMeta app.handlerMeta route.handler.hid
      = some (mkHandlerMeta route.handler))
    (hparam : ∃ p ∈ route.handler.params, p.name = pname ∧ p.hasDefault = false)
    (hreq : pname ≠ "request")
    (hnp : pname ∉ (scanParams route.path.data).map (·.1)) :
    ∃ msg, app.handle scope =
      ⟨some ⟨500, .jsonBody (.obj ([("detail", .s "Internal Server Error")]
          ++ (if app.debug then [("traceback", .s (formatTraceback msg))] else [])))⟩,
        some route.handler.hid⟩ := by
  have h2' : (app.router.routes.findSome? fun r =>
      if r.method = pyUpper scope.method then
        (r.matchPath scope.path).map fun ps => (r, ps)
      else none) = some (route, pparams) := h2
  obtain ⟨hmeth, hmp, -⟩ := findMatch_some_spec h2'
  unfold Route.matchPath at hmp
  obtain ⟨caps, hcaps, hconv⟩ := Option.map_eq_some'.mp hmp
  have hkeys : caps.map (·.1) = segParamNames route.segs := matchSegs_keys hcaps
  have hfun : ((fun x : String × PValue => x.1)
      ∘ fun c : String × ParamType × List Char => (c.1, convert c.2.1 c.2.2))
      = fun c : String × ParamType × List Char => c.1 := by
    funext c
    rfl
  have hkeys2 : pparams.map (·.1) = segParamNames route.segs := by
    rw [← hconv, List.map_map, hfun]
    exact hkeys
  have hnames : segParamNames route.segs
      = (tokParams (scanTokens route.path.data [])).map (·.1) := segsOfTokens_names hw
  have hnp2 : pname ∉ pparams.map (·.1) := by
    rw [hkeys2, hnames, ← scanParams_eq_tokParams]
    exact hnp
  obtain ⟨msg, hmsg⟩ :=
    invoke_missing_param hmeta hparam hreq (lookup_eq_none_of_not_mem hnp2)
  exact ⟨msg, handle_exn_500 h1 h2 hmsg⟩

theorem C10_witness :
    appQ.handle ⟨"http", "GET", "/x"⟩ =
      ⟨some ⟨500, .jsonBody (.obj [("detail", .s "Internal Server Error")])⟩,
        some 5⟩ := by
  obtain ⟨msg, hm⟩ :=
    C10_unbound_required_param_500 appQ ⟨"http", "GET", "/x"⟩ qRoute [] "q"
      rfl rfl compile_slash_x rfl
      ⟨⟨"q", some .intTy, false⟩, by simp [appQ, qRoute, needsQHandler], rfl, rfl⟩
      (by decide)
      (by rw [show qRoute.path = "/x" from rfl]
          rw [show ("/x" : String).data = ['/', 'x'] from rfl, scanParams_slash_x]
          simp)
  exact hm
